import Mathlib

/-
Verification of the subtitle batch-translation pipeline of this repository:
a shallow embedding of `src/srt_parser.py` and `src/translator.py`, with
theorems settling the specification's claims about them.
-/

namespace SubAI

/-!
## Python string primitives

Python `str` values are modelled as `List Char`.  `str.strip` is modelled
with CPython's full whitespace class; the digit runs accepted by `int(...)`
are modelled on the ASCII digits that every value the SRT reader/writer
round-trips consists of (Python's wider unicode decimal-digit class and its
underscore grouping are outside the model).
-/

/-- The whitespace characters of Python's `str.strip()`: the code points
CPython's `Py_UNICODE_ISSPACE` accepts — `\t\n\v\f\r` (9-13), the file/
group/record/unit separators 28-31, the space 32, NEL 0x85, NBSP 0xa0,
Ogham space 0x1680, the typographic spaces 0x2000-0x200a, the line and
paragraph separators 0x2028/0x2029, narrow NBSP 0x202f, the mathematical
space 0x205f and the ideographic space 0x3000. -/
def isPySpace (c : Char) : Bool :=
  decide ((9 ≤ c.toNat ∧ c.toNat ≤ 13) ∨ (28 ≤ c.toNat ∧ c.toNat ≤ 32) ∨
    c.toNat = 0x85 ∨ c.toNat = 0xa0 ∨ c.toNat = 0x1680 ∨
    (0x2000 ≤ c.toNat ∧ c.toNat ≤ 0x200a) ∨
    c.toNat = 0x2028 ∨ c.toNat = 0x2029 ∨ c.toNat = 0x202f ∨
    c.toNat = 0x205f ∨ c.toNat = 0x3000)

/-- Python `s.strip()`: remove leading and trailing whitespace. -/
def pyStrip (s : List Char) : List Char :=
  ((s.dropWhile isPySpace).reverse.dropWhile isPySpace).reverse

/-- Helper: prepend a character to the first part of a split. -/
def consHead (c : Char) : List (List Char) → List (List Char)
  | [] => [[c]]
  | b :: bs => (c :: b) :: bs

/-- Python `s.split('\n')`. -/
def splitNl : List Char → List (List Char)
  | [] => [[]]
  | '\n' :: rest => [] :: splitNl rest
  | c :: rest => consHead c (splitNl rest)

/-- Value of an ASCII digit character. -/
def digitVal (c : Char) : Nat := c.toNat - 48

/-- Value of a (non-empty, all-digit) decimal string, most significant first. -/
def digitsVal (s : List Char) : Nat :=
  s.foldl (fun a c => a * 10 + digitVal c) 0

def allDigits (s : List Char) : Bool := s.all Char.isDigit

/-- Parse an unsigned run of decimal digits, as `int(...)` does after sign
handling: it must be non-empty and all digits. -/
def pyNatDigits (ds : List Char) : Option Nat :=
  if ds ≠ [] ∧ allDigits ds then some (digitsVal ds) else none

/-- Python `int(s)`: strip whitespace, optional sign, decimal digits;
any other shape raises `ValueError`, modelled as `none`. -/
def pyInt (s : List Char) : Option Int :=
  match pyStrip s with
  | [] => none
  | c :: rest =>
    if c = '-' then
      match pyNatDigits rest with
      | none => none
      | some n => some (-(n : Int))
    else if c = '+' then
      match pyNatDigits rest with
      | none => none
      | some n => some ((n : Int))
    else
      match pyNatDigits (c :: rest) with
      | none => none
      | some n => some ((n : Int))

/-- One subtitle cue, `SubtitleEntry` of `srt_parser.py`. -/
structure SubtitleEntry where
  index : Int
  start_time : List Char
  end_time : List Char
  text : List Char
deriving DecidableEq

theorem getLastQ_cons_of_ne_nil {α : Type} {l : List α} (a : α) (h : l ≠ []) :
    (a :: l).getLast? = l.getLast? := by
  rw [show a :: l = [a] ++ l from rfl, List.getLast?_append_of_ne_nil _ h]

inductive PyVal where
  | pyNull : PyVal
  | pyBool : Bool → PyVal
  | pyInt : Int → PyVal
  | pyStr : List Char → PyVal
  | pyList : List PyVal → PyVal
  | pyDict : List (List Char × PyVal) → PyVal

/-- Python `d[k]` / `k in d` on a decoded JSON object. -/
def dictGet (k : List Char) : List (List Char × PyVal) → Option PyVal
  | [] => none
  | (k', v) :: rest => if k' = k then some v else dictGet k rest

/-- Python iteration `for x in v`: lists yield members, dicts yield their
keys, strings yield one-character strings; other values raise `TypeError`. -/
def iterItems : PyVal → Except Unit (List PyVal)
  | .pyList xs => .ok xs
  | .pyDict kvs => .ok (kvs.map (fun kv => .pyStr kv.1))
  | .pyStr s => .ok (s.map (fun c => .pyStr [c]))
  | _ => .error ()

/-!
## Batch translator — `_translate_batch_texts` (`src/translator.py` 98-145)
-/

/-- Model of the guarded index use `0 <= idx < len(texts)` followed by
`translated_texts[idx] = ...`: integers (and booleans, which are integers in
Python) compare and index; any other value raises `TypeError` at the first
comparison, which the outer handler catches. -/
def idxCheck : PyVal → Nat → Except Unit (Option Nat)
  | .pyInt m, n => .ok (if 0 ≤ m ∧ m < n then some m.toNat else none)
  | .pyBool b, n => .ok (if (if b then 1 else 0) < n then some (if b then 1 else 0) else none)
  | _, _ => .error ()

/-- One iteration of the reply loop (lines 125-129): a dict carrying both
`id` and `text` keys stores its text value — whatever it is, a JSON `null`
included — at the in-range id position of `translated_texts`; all other
items are skipped; a non-integer id raises.  The array starts as
`[None] * len(texts)`, so `.pyNull` is its missing-entry marker. -/
def procItem (n : Nat) (arr : List PyVal) : PyVal → Except Unit (List PyVal)
  | .pyDict kvs =>
    match dictGet ['i', 'd'] kvs, dictGet ['t', 'e', 'x', 't'] kvs with
    | some idv, some txt =>
      match idxCheck idv n with
      | .error e => .error e
      | .ok none => .ok arr
      | .ok (some p) => .ok (arr.set p txt)
    | _, _ => .ok arr
  | _ => .ok arr

/-- The reply loop over all items. -/
def procItems (n : Nat) : List PyVal → List PyVal → Except Unit (List PyVal)
  | [], arr => .ok arr
  | item :: rest, arr =>
    match procItem n arr item with
    | .error e => .error e
    | .ok arr2 => procItems n rest arr2

/-- The fill loop's body (lines 132-134): `if translated_texts[i] is None:
translated_texts[i] = texts[i]`.  A stored value that *is* the JSON `null`
is indistinguishable from a never-filled slot, so it too is replaced by the
original text. -/
def fillNone (v orig : PyVal) : PyVal :=
  match v with
  | .pyNull => orig
  | v => v

/-- The structured reply path (lines 121-136) on the decoded reply value:
iterate the reply, build `translated_texts` from `[None] * len(texts)`, then
replace every position still holding `None` with the corresponding
original. -/
def structuredPath (v : PyVal) (texts : List PyVal) : Except Unit (List PyVal) :=
  match iterItems v with
  | .error e => .error e
  | .ok items =>
    match procItems texts.length items (List.replicate texts.length .pyNull) with
    | .error e => .error e
    | .ok arr => .ok (List.zipWith fillNone arr texts)

/-- Python `s.startswith(pre)`. -/
def pyStartsWith (pre s : List Char) : Bool := pre.isPrefixOf s

/-- Python `s.replace(pat, '')` with explicit fuel: scan left to right,
deleting non-overlapping occurrences of `pat` (a fuel of `s.length` always
suffices since every step consumes at least one character). -/
def removeSubAux (pat : List Char) : Nat → List Char → List Char
  | 0, s => s
  | _ + 1, [] => []
  | fuel + 1, c :: rest =>
    if pat ≠ [] ∧ pat.isPrefixOf (c :: rest) then
      removeSubAux pat fuel ((c :: rest).drop pat.length)
    else c :: removeSubAux pat fuel rest

/-- Python `s.replace(pat, '')`. -/
def removeSub (pat s : List Char) : List Char := removeSubAux pat s.length s

/-- The line heuristics of `_fallback_parse_response` (lines 147-163): strip
the reply, split into lines, strip each, drop structural-delimiter lines
(opening brace, opening bracket, `"id"` label), remove the `"text":` label
and all quotes, strip again, drop a leading `: `, and keep what is non-empty
and not a lone comma. -/
def fallbackLines (response_text : List Char) : List (List Char) :=
  ((splitNl (pyStrip response_text)).map pyStrip).filterMap (fun line =>
    if line ≠ [] ∧ ¬ pyStartsWith "\x7b".data line ∧ ¬ pyStartsWith "[".data line ∧
        ¬ pyStartsWith "\"id\"".data line then
      let l2 := pyStrip (removeSub "\"".data (removeSub "\"text\":".data line))
      let l3 := if pyStartsWith ": ".data l2 then l2.drop 2 else l2
      if l3 ≠ [] ∧ l3 ≠ [','] then some l3 else none
    else none)

/-- Pad with originals at the missing positions, then truncate to the exact
count: the tail of `_fallback_parse_response` (lines 165-169). -/
def padTruncate (tr : List PyVal) (orig : List PyVal) : List PyVal :=
  (tr ++ orig.drop tr.length).take orig.length

/-- `_translate_batch_texts`'s fallback parser. -/
def fallbackParseResponse (response_text : List Char) (original_texts : List PyVal) :
    List PyVal :=
  padTruncate ((fallbackLines response_text).map (fun l => .pyStr l)) original_texts

/-- Outcome of the service call plus JSON decode, the only external input of
`_translate_batch_texts`: the call (or reading its reply) raised; the reply
text failed `json.loads` (the stripped text is kept for the fallback
parser); or it decoded to a value. -/
inductive ReplyOutcome where
  | hardFail : ReplyOutcome
  | unparsable : List Char → ReplyOutcome
  | parsed : PyVal → ReplyOutcome

/-- `SubtitleTranslator._translate_batch_texts`: the structured path with its
`TypeError`s caught by the outer `except Exception` handler (lines 143-145,
returning the originals), the fallback parser on `JSONDecodeError`
(lines 138-141), and the originals on a hard failure of the call itself. -/
def translateBatchTexts (reply : ReplyOutcome) (texts : List PyVal) : List PyVal :=
  match reply with
  | .hardFail => texts
  | .unparsable raw => fallbackParseResponse raw texts
  | .parsed v =>
    match structuredPath v texts with
    | .ok res => res
    | .error _ => texts

/-!
## Length preservation and abort behaviour of the batch translator
-/

theorem padTruncate_length (tr orig : List PyVal) :
    (padTruncate tr orig).length = orig.length := by
  simp only [padTruncate, List.length_take, List.length_append, List.length_drop]
  omega

theorem procItem_length {n : Nat} {arr arr2 : List PyVal} {item : PyVal}
    (h : procItem n arr item = .ok arr2) : arr2.length = arr.length := by
  unfold procItem at h
  split at h
  · split at h
    · split at h
      · exact absurd h (by simp)
      · cases h; rfl
      · cases h; simp [List.length_set]
    · cases h; rfl
  · cases h; rfl

theorem procItems_length {n : Nat} : ∀ {items arr arr2 : List PyVal},
    procItems n items arr = .ok arr2 → arr2.length = arr.length := by
  intro items
  induction items with
  | nil =>
    intro arr arr2 h
    simp only [procItems] at h
    cases h; rfl
  | cons item rest ih =>
    intro arr arr2 h
    simp only [procItems] at h
    split at h
    · exact absurd h (by simp)
    · rename_i arr3 heq
      rw [ih h, procItem_length heq]

theorem structuredPath_length {v : PyVal} {texts res : List PyVal}
    (h : structuredPath v texts = .ok res) : res.length = texts.length := by
  unfold structuredPath at h
  split at h
  · exact absurd h (by simp)
  · split at h
    · exact absurd h (by simp)
    · rename_i arr heq
      cases h
      have hlen := procItems_length heq
      simp only [List.length_replicate] at hlen
      simp [List.length_zipWith, hlen]

/-- Claim C2 (amended): for every reply outcome and every input list the
batch translate operation returns a list of exactly the input's length, and
no exception escapes it — the embedding is a total function whose internal
`TypeError`/`JSONDecodeError` paths all land in a fallback; a hard failure
of the underlying service call yields exactly the original texts.  (The
original claim's "list of strings" is not preserved: a well-formed reply
entry may carry a non-string text value, which is stored verbatim.) -/
theorem claim_C2_thm (reply : ReplyOutcome) (texts : List PyVal) :
    (translateBatchTexts reply texts).length = texts.length ∧
      translateBatchTexts .hardFail texts = texts := by
  constructor
  · cases reply with
    | hardFail => rfl
    | unparsable raw => exact padTruncate_length _ _
    | parsed v =>
      rw [show translateBatchTexts (.parsed v) texts =
        (match structuredPath v texts with | .ok res => res | .error _ => texts) from rfl]
      split
      · exact structuredPath_length ‹_›
      · rfl
  · rfl

/-- Counterexample to claim C2 as stated: for input `["a"]` and the decoded
reply `[{"id": 0, "text": 7}]` — a well-formed JSON reply whose text field
is a number — the result is `[7]`, which has the right length but is not a
list of strings. -/
theorem claim_C2_counterexample :
    translateBatchTexts
        (.parsed (.pyList [.pyDict [("id".data, .pyInt 0), ("text".data, .pyInt 7)]]))
        [.pyStr "a".data] = [.pyInt 7] ∧
      ∀ s : List Char, PyVal.pyInt 7 ≠ .pyStr s :=
  ⟨rfl, fun _ h => PyVal.noConfusion h⟩

/-!
## Claim C3: characterisation of the structured reply path
-/

/-- An item of a decoded reply list is id-safe when processing it cannot
raise: it is skipped (not a dict carrying both keys), or its id is an
integer/boolean. -/
def itemSafe (n : Nat) : PyVal → Bool
  | .pyDict kvs =>
    match dictGet ['i', 'd'] kvs, dictGet ['t', 'e', 'x', 't'] kvs with
    | some idv, some _ =>
      match idxCheck idv n with
      | .ok _ => true
      | .error _ => false
    | _, _ => true
  | _ => true

/-- The text a reply item contributes to output position `p`, if any. -/
def entryHit (n p : Nat) : PyVal → Option PyVal
  | .pyDict kvs =>
    match dictGet ['i', 'd'] kvs, dictGet ['t', 'e', 'x', 't'] kvs with
    | some idv, some txt =>
      match idxCheck idv n with
      | .ok (some q) => if q = p then some txt else none
      | _ => none
    | _, _ => none
  | _ => none

theorem idxCheck_lt {idv : PyVal} {n q : Nat} (h : idxCheck idv n = .ok (some q)) : q < n := by
  cases idv with
  | pyInt m =>
    simp only [idxCheck, Except.ok.injEq] at h
    split at h
    · rename_i hcond
      cases h
      omega
    · simp at h
  | pyBool b =>
    cases b <;> simp only [idxCheck, Except.ok.injEq] at h <;> simp at h <;> omega
  | pyNull => simp [idxCheck] at h
  | pyStr s => simp [idxCheck] at h
  | pyList xs => simp [idxCheck] at h
  | pyDict kvs => simp [idxCheck] at h

theorem getLastQ_cons_or {α : Type} (a : α) (l : List α) :
    (a :: l).getLast? = l.getLast?.or (some a) := by
  cases hl : l.getLast? with
  | none => rw [List.getLast?_eq_none_iff.mp hl]; rfl
  | some x =>
    have hne : l ≠ [] := by
      intro h
      rw [h] at hl
      simp at hl
    rw [getLastQ_cons_of_ne_nil a hne, hl]
    rfl

theorem procItem_safe {n : Nat} {arr : List PyVal} {item : PyVal}
    (hlen : arr.length = n) (hsafe : itemSafe n item = true) :
    ∃ arr1, procItem n arr item = .ok arr1 ∧ arr1.length = arr.length ∧
      ∀ p, p < arr.length →
        arr1.getD p .pyNull = (entryHit n p item).getD (arr.getD p .pyNull) := by
  cases item with
  | pyDict kvs =>
    simp only [itemSafe] at hsafe
    simp only [procItem, entryHit]
    cases hid : dictGet ['i', 'd'] kvs with
    | none => exact ⟨arr, rfl, rfl, fun p _ => by rw [Option.getD_none]⟩
    | some idv =>
      rw [hid] at hsafe
      cases htxt : dictGet ['t', 'e', 'x', 't'] kvs with
      | none => exact ⟨arr, rfl, rfl, fun p _ => by rw [Option.getD_none]⟩
      | some txt =>
        rw [htxt] at hsafe
        dsimp only at hsafe ⊢
        cases hidx : idxCheck idv n with
        | error e =>
          rw [hidx] at hsafe
          simp at hsafe
        | ok o =>
          cases o with
          | none =>
            dsimp only
            exact ⟨arr, rfl, rfl, fun p _ => by rw [Option.getD_none]⟩
          | some q =>
            dsimp only
            have hq : q < arr.length := hlen ▸ idxCheck_lt hidx
            refine ⟨arr.set q txt, rfl, by simp, fun p hp => ?_⟩
            by_cases hpq : q = p
            · subst hpq
              rw [List.getD_eq_getElem?_getD, List.getElem?_set_eq_of_lt _ hq,
                if_pos rfl, Option.getD_some, Option.getD_some]
            · rw [List.getD_eq_getElem?_getD, List.getElem?_set_ne hpq, if_neg hpq,
                Option.getD_none, List.getD_eq_getElem?_getD]
  | pyNull => exact ⟨arr, rfl, rfl, fun p _ => by rw [show entryHit n p .pyNull = none from rfl, Option.getD_none]⟩
  | pyBool b => exact ⟨arr, rfl, rfl, fun p _ => by rw [show entryHit n p (.pyBool b) = none from rfl, Option.getD_none]⟩
  | pyInt m => exact ⟨arr, rfl, rfl, fun p _ => by rw [show entryHit n p (.pyInt m) = none from rfl, Option.getD_none]⟩
  | pyStr s => exact ⟨arr, rfl, rfl, fun p _ => by rw [show entryHit n p (.pyStr s) = none from rfl, Option.getD_none]⟩
  | pyList xs => exact ⟨arr, rfl, rfl, fun p _ => by rw [show entryHit n p (.pyList xs) = none from rfl, Option.getD_none]⟩

theorem or_some_getD {α : Type} (a : Option α) (t x : α) :
    (a.or (some t)).getD x = a.getD t := by
  cases a <;> rfl

theorem procItem_bad {n : Nat} {arr : List PyVal} {item : PyVal}
    (h : itemSafe n item = false) : procItem n arr item = .error () := by
  cases item with
  | pyDict kvs =>
    simp only [itemSafe] at h
    simp only [procItem]
    cases hid : dictGet ['i', 'd'] kvs with
    | none =>
      rw [hid] at h
      simp at h
    | some idv =>
      rw [hid] at h
      cases htxt : dictGet ['t', 'e', 'x', 't'] kvs with
      | none =>
        rw [htxt] at h
        simp at h
      | some txt =>
        rw [htxt] at h
        dsimp only at h ⊢
        cases hidx : idxCheck idv n with
        | error e => rfl
        | ok o =>
          rw [hidx] at h
          simp at h
  | pyNull => simp [itemSafe] at h
  | pyBool b => simp [itemSafe] at h
  | pyInt m => simp [itemSafe] at h
  | pyStr s => simp [itemSafe] at h
  | pyList xs => simp [itemSafe] at h

theorem procItems_safe {n : Nat} : ∀ {items arr : List PyVal},
    arr.length = n → (∀ item ∈ items, itemSafe n item = true) →
    ∃ arr2, procItems n items arr = .ok arr2 ∧ arr2.length = arr.length ∧
      ∀ p, p < arr.length →
        arr2.getD p .pyNull =
          ((items.filterMap (entryHit n p)).getLast?).getD (arr.getD p .pyNull) := by
  intro items
  induction items with
  | nil =>
    intro arr hlen _
    exact ⟨arr, rfl, rfl, fun p _ => by simp⟩
  | cons item rest ih =>
    intro arr hlen hsafe
    obtain ⟨arr1, h1, hl1, hp1⟩ :=
      procItem_safe hlen (hsafe item (List.mem_cons_self item rest))
    obtain ⟨arr2, h2, hl2, hp2⟩ := @ih arr1 (hl1 ▸ hlen)
      (fun x hx => hsafe x (List.mem_cons_of_mem item hx))
    refine ⟨arr2, ?_, by omega, fun p hp => ?_⟩
    · simp only [procItems, h1]
      exact h2
    · rw [hp2 p (by omega), hp1 p hp, List.filterMap_cons]
      cases hE : entryHit n p item with
      | none => rw [Option.getD_none]
      | some t => rw [getLastQ_cons_or, or_some_getD, Option.getD_some]

theorem procItems_bad {n : Nat} : ∀ {items arr : List PyVal},
    arr.length = n → (∃ item ∈ items, itemSafe n item = false) →
    procItems n items arr = .error () := by
  intro items
  induction items with
  | nil =>
    intro arr _ hex
    simp at hex
  | cons item rest ih =>
    intro arr hlen hex
    cases hsafe : itemSafe n item with
    | false => simp only [procItems, procItem_bad hsafe]
    | true =>
      obtain ⟨arr1, h1, hl1, -⟩ := procItem_safe hlen hsafe
      have hex' : ∃ x ∈ rest, itemSafe n x = false := by
        obtain ⟨x, hx, hxf⟩ := hex
        rcases List.mem_cons.mp hx with rfl | hx'
        · rw [hsafe] at hxf; cases hxf
        · exact ⟨x, hx', hxf⟩
      simp only [procItems, h1]
      exact ih (hl1 ▸ hlen) hex'

/-- Good-path characterisation of the structured reply handling for a batch
of `texts` and a decoded reply list `items`: the result has the input's
length and every position carries the text of the last matching reply entry
run through the fill loop's `is None` test — so a matched position whose
delivered text is the JSON `null`, like an unmatched position, falls back to
the original text. -/
def structuredGood (texts items : List PyVal) : Prop :=
  ∃ res, translateBatchTexts (.parsed (.pyList items)) texts = res ∧
    res.length = texts.length ∧
    ∀ p, p < texts.length →
      res.getD p .pyNull =
        fillNone (((items.filterMap (entryHit texts.length p)).getLast?).getD .pyNull)
          (texts.getD p .pyNull)

/-- Claim C3 (amended): when the service reply parses as a structured list
whose entries are all id-safe — every dict entry carrying both `id` and
`text` keys has an integer (or boolean) id — then each output position
receives the text of the last reply entry whose in-range id matches it
unless that text is the JSON `null`, which the fill loop's `is None` test
treats as a missing translation; entries that are not dicts, lack one of
the keys, or have an out-of-range integer id are ignored without affecting
other positions, and every unmatched or null-matched position keeps the
original text (in particular, the reply `[{"id": 1, "text": "X"}]` for a
2-text batch yields `[originals[0], "X"]`); but a reply entry whose id is a
non-integer value aborts the structured parse and the entire batch falls
back to the original texts. -/
theorem claim_C3_thm (texts items : List PyVal) :
    ((∀ item ∈ items, itemSafe texts.length item = true) → structuredGood texts items) ∧
      ((∃ item ∈ items, itemSafe texts.length item = false) →
        translateBatchTexts (.parsed (.pyList items)) texts = texts) := by
  constructor
  · intro hsafe
    obtain ⟨arr2, h2, hl2, hp2⟩ :=
      @procItems_safe texts.length items (List.replicate texts.length .pyNull) (by simp) hsafe
    have hlens : arr2.length = texts.length := by simpa using hl2
    have hred : translateBatchTexts (.parsed (.pyList items)) texts =
        (match structuredPath (.pyList items) texts with
          | .ok res => res
          | .error _ => texts) := rfl
    have hsp : structuredPath (.pyList items) texts =
        .ok (List.zipWith fillNone arr2 texts) := by
      unfold structuredPath
      dsimp only [iterItems]
      rw [h2]
    refine ⟨_, by rw [hred, hsp], ?_, ?_⟩
    · simp only [List.length_zipWith]
      omega
    · intro p hp
      have hplt : p < (List.zipWith fillNone arr2 texts).length := by
        simp only [List.length_zipWith]
        omega

      have harr : arr2.getD p .pyNull =
          ((items.filterMap (entryHit texts.length p)).getLast?).getD .pyNull := by
        rw [hp2 p (by simpa using hp),
          List.getD_eq_getElem _ _ (by simpa using hp), List.getElem_replicate]
      rw [List.getD_eq_getElem _ _ hplt, List.getElem_zipWith,
        ← List.getD_eq_getElem arr2 .pyNull (by omega), harr,
        List.getD_eq_getElem texts .pyNull (by omega)]
  · intro hunsafe
    have herr : structuredPath (.pyList items) texts = .error () := by
      unfold structuredPath
      dsimp only [iterItems]
      rw [procItems_bad (by simp) hunsafe]
    rw [show translateBatchTexts (.parsed (.pyList items)) texts =
      (match structuredPath (.pyList items) texts with
        | .ok res => res
        | .error _ => texts) from rfl, herr]

/-- Counterexample to claim C3 as stated: for texts `["a", "b"]` and the
decoded reply `[{"id": 1, "text": "X"}, {"id": "0", "text": "Y"}]`, the
second entry is malformed (a string id), yet it is not merely ignored: the
comparison `0 <= "0"` raises `TypeError`, the outer handler fires, and the
whole batch returns the originals — position 1 loses the translation `"X"`
carried by its well-formed entry.  Moreover a matching in-range entry does
not always deliver its text: the reply `[{"id": 0, "text": null}]` for
`["a"]` stores the JSON `null`, which the fill loop then replaces with the
original `"a"` instead of keeping the entry's text. -/
theorem claim_C3_counterexample :
    (translateBatchTexts (.parsed (.pyList
        [.pyDict [("id".data, .pyInt 1), ("text".data, .pyStr "X".data)],
         .pyDict [("id".data, .pyStr "0".data), ("text".data, .pyStr "Y".data)]]))
      [.pyStr "a".data, .pyStr "b".data] = [.pyStr "a".data, .pyStr "b".data] ∧
      ([.pyStr "a".data, .pyStr "b".data] : List PyVal).getD 1 .pyNull ≠ .pyStr "X".data) ∧
      translateBatchTexts (.parsed (.pyList
          [.pyDict [("id".data, .pyInt 0), ("text".data, .pyNull)]]))
        [.pyStr "a".data] = [.pyStr "a".data] ∧
      PyVal.pyStr "a".data ≠ .pyNull := by
  refine ⟨⟨rfl, ?_⟩, rfl, fun h => PyVal.noConfusion h⟩
  show PyVal.pyStr "b".data ≠ PyVal.pyStr "X".data
  intro h
  injection h with h'
  exact absurd h' (by decide)

/-- Witness for C3 at the specification's own example: the reply
`[{"id": 1, "text": "X"}]` for the 2-text batch `["a", "b"]` satisfies the
characterisation, and concretely yields `["a", "X"]`. -/
theorem claim_C3_witness :
    structuredGood [.pyStr "a".data, .pyStr "b".data]
        [.pyDict [("id".data, .pyInt 1), ("text".data, .pyStr "X".data)]] ∧
      translateBatchTexts (.parsed (.pyList
          [.pyDict [("id".data, .pyInt 1), ("text".data, .pyStr "X".data)]]))
        [.pyStr "a".data, .pyStr "b".data] = [.pyStr "a".data, .pyStr "X".data] :=
  ⟨(claim_C3_thm _ _).1 (by decide), rfl⟩

/-!
## Pipeline orchestrator — `translate_file` (`src/translator.py` 23-96)

The orchestrator shuffles subtitle records between the parser, the batch
translator, the checkpoint file and the output file.  Python never
type-checks the record fields (a checkpoint read back from disk can carry
arbitrary JSON values), so a pipeline entry holds four decoded values; the
parser's entries are embedded by `pyOfSubtitle`.
-/

/-- One subtitle record as `translate_file` handles it. -/
structure PEntry where
  index : PyVal
  start_time : PyVal
  end_time : PyVal
  text : PyVal

/-- A parsed `SubtitleEntry` as the pipeline sees it. -/
def pyOfSubtitle (e : SubtitleEntry) : PEntry :=
  ⟨.pyInt e.index, .pyStr e.start_time, .pyStr e.end_time, .pyStr e.text⟩

/-- The serialised record `_save_checkpoint` writes for one entry
(lines 218-225). -/
def pyOfEntry (e : PEntry) : PyVal :=
  .pyDict [("index".data, e.index), ("start_time".data, e.start_time),
    ("end_time".data, e.end_time), ("text".data, e.text)]

/-- The JSON value of a whole checkpoint file. -/
def ckptJson (entries : List PEntry) : PyVal := .pyList (entries.map pyOfEntry)

/-- State of the checkpoint file on disk: missing; present but unreadable or
not JSON-decodable; or decoding to a value. -/
inductive CkptFile where
  | absent : CkptFile
  | unreadable : CkptFile
  | content : PyVal → CkptFile

/-- `_load_checkpoint`'s per-record extraction (lines 201-207):
`entry_data['index']` etc. raise (`TypeError`/`KeyError`) unless the record
is a dict carrying all four keys. -/
def entryOfPy : PyVal → Except Unit PEntry
  | .pyDict kvs =>
    match dictGet "index".data kvs, dictGet "start_time".data kvs,
        dictGet "end_time".data kvs, dictGet "text".data kvs with
    | some ix, some st, some en, some tx => .ok ⟨ix, st, en, tx⟩
    | _, _, _, _ => .error ()
  | _ => .error ()

/-- The record loop of `_load_checkpoint`: build the entry list, stopping
with the first failure. -/
def mapEntries : List PyVal → Except Unit (List PEntry)
  | [] => .ok []
  | v :: rest =>
    match entryOfPy v with
    | .error e => .error e
    | .ok en =>
      match mapEntries rest with
      | .error e => .error e
      | .ok ens => .ok (en :: ens)

/-- `for entry_data in checkpoint_data` plus record extraction. -/
def buildEntries (v : PyVal) : Except Unit (List PEntry) :=
  match iterItems v with
  | .error e => .error e
  | .ok items => mapEntries items

/-- `_load_checkpoint` (lines 191-213): a missing file, or any failure while
reading, JSON-decoding or rebuilding the records, yields the empty list (the
`except` handler); a well-shaped checkpoint yields its entries. -/
def loadCheckpoint : CkptFile → List PEntry
  | .absent => []
  | .unreadable => []
  | .content v =>
    match buildEntries v with
    | .ok es => es
    | .error _ => []

/-- Mutable state of one `translate_file` run: the accumulated
`translated_entries`, the checkpoint file, the output file (`none` when it
has not been written; otherwise the entry list last given to `write_srt`),
and counters of checkpoint saves and service calls. -/
structure St where
  done : List PEntry
  ckpt : CkptFile
  out : Option (List PEntry)
  saves : Nat
  calls : Nat

/-- One iteration of the batch loop (lines 42-83) at loop index `i`, where
`trBi` maps this batch's texts to the translator's result: slice
`entries[i:min(i+batch_size, n)]`, extract the texts, translate them in one
service call, rebuild entries keeping index and timing (falling back to the
original text where the translator returned fewer texts), extend the
accumulated result, save the checkpoint and rewrite the whole output file. -/
def batchStep (trBi : List PyVal → List PyVal) (entries : List PEntry) (bs i : Nat)
    (s : St) : St :=
  let batch_entries := (entries.drop i).take bs
  let batch_texts := batch_entries.map (fun e => e.text)
  let translated_texts := trBi batch_texts
  let batch_translated := batch_entries.enum.map (fun je =>
    { je.2 with text := translated_texts.getD je.1 je.2.text })
  let done2 := s.done ++ batch_translated
  { done := done2, ckpt := .content (ckptJson done2), out := some done2,
    saves := s.saves + 1, calls := s.calls + 1 }

/-- The batch loop `for i in range(start_index, len(entries), batch_size)`
(line 42); `trB i` is the translator's output for the batch starting at
entry `i`.  A positive step is exactly what Python's `range` requires. -/
def runFrom (trB : Nat → List PyVal → List PyVal) (entries : List PEntry) (bs : Nat)
    (hbs : 0 < bs) (i : Nat) (s : St) : St :=
  if i < entries.length then
    runFrom trB entries bs hbs (i + bs) (batchStep (trB i) entries bs i s)
  else s
termination_by entries.length - i
decreasing_by omega

/-- The same loop limited to at most `k` iterations, keeping the loop index:
its intermediate states are the states the running pipeline goes through. -/
def loopSteps (trB : Nat → List PyVal → List PyVal) (entries : List PEntry) (bs : Nat) :
    Nat → Nat → St → Nat × St
  | 0, i, s => (i, s)
  | k + 1, i, s =>
    if i < entries.length then
      loopSteps trB entries bs k (i + bs) (batchStep (trB i) entries bs i s)
    else (i, s)

/-- Observable outcome of a completed `translate_file` call: the returned
sequence, the final checkpoint and output files, the resume point
(`start_index`), and the numbers of checkpoint saves and service calls. -/
structure RunResult where
  returned : List PEntry
  ckpt : CkptFile
  out : Option (List PEntry)
  resumedAt : Nat
  saves : Nat
  calls : Nat

/-- The terminal step (lines 90-96): delete the checkpoint file if it
exists and return the accumulated sequence.  The `os.remove` call is not
wrapped in any `try`, so its failure propagates out of `translate_file`. -/
def finishRun (removeOk : Bool) (start : Nat) (s : St) : Except Unit RunResult :=
  match s.ckpt with
  | .absent => .ok ⟨s.done, .absent, s.out, start, s.saves, s.calls⟩
  | _ =>
    if removeOk then .ok ⟨s.done, .absent, s.out, start, s.saves, s.calls⟩
    else .error ()

/-- `SubtitleTranslator.translate_file` (lines 23-96) as one run over the
parsed input `entries`, with the checkpoint and output files as found
(`ckpt0`, `out0`) and `removeOk` telling whether the final `os.remove`
succeeds.  File writes are modelled as succeeding (`_save_checkpoint`
catches its own errors; output-write failures are outside every claim), and
the per-batch `try/except` re-raises whatever reaches it, so it is
invisible: the composed batch translator never raises. -/
def translateFile (trB : Nat → List PyVal → List PyVal) (entries : List PEntry)
    (bs : Nat) (hbs : 0 < bs) (ckpt0 : CkptFile) (out0 : Option (List PEntry))
    (removeOk : Bool) : Except Unit RunResult :=
  finishRun removeOk (loadCheckpoint ckpt0).length
    (runFrom trB entries bs hbs (loadCheckpoint ckpt0).length
      ⟨loadCheckpoint ckpt0, ckpt0, out0, 0, 0⟩)

/-- The translated entries one batch produces. -/
def transOne (trBi : List PyVal → List PyVal) (entries : List PEntry) (bs i : Nat) :
    List PEntry :=
  let batch_entries := (entries.drop i).take bs
  let translated_texts := trBi (batch_entries.map (fun e => e.text))
  batch_entries.enum.map (fun je =>
    { je.2 with text := translated_texts.getD je.1 je.2.text })

/-- The per-batch translated slices the loop processes from index `i`, in
processing order. -/
def transBatches (trB : Nat → List PyVal → List PyVal) (entries : List PEntry) (bs : Nat)
    (hbs : 0 < bs) (i : Nat) : List (List PEntry) :=
  if i < entries.length then
    transOne (trB i) entries bs i :: transBatches trB entries bs hbs (i + bs)
  else []
termination_by entries.length - i
decreasing_by omega

/-- The raw batch slices `entries[i:min(i+batch_size, n)]` the loop visits
from index `i`, in processing order. -/
def batchesFrom (entries : List PEntry) (bs : Nat) (hbs : 0 < bs) (i : Nat) :
    List (List PEntry) :=
  if i < entries.length then
    (entries.drop i).take bs :: batchesFrom entries bs hbs (i + bs)
  else []
termination_by entries.length - i
decreasing_by omega

/-!
## Pipeline lemmas
-/

theorem runFrom_eq (trB : Nat → List PyVal → List PyVal) (entries : List PEntry) (bs : Nat)
    (hbs : 0 < bs) (i : Nat) (s : St) :
    runFrom trB entries bs hbs i s =
      if i < entries.length then
        runFrom trB entries bs hbs (i + bs) (batchStep (trB i) entries bs i s)
      else s := by
  rw [runFrom]

theorem transBatches_eq (trB : Nat → List PyVal → List PyVal) (entries : List PEntry)
    (bs : Nat) (hbs : 0 < bs) (i : Nat) :
    transBatches trB entries bs hbs i =
      if i < entries.length then
        transOne (trB i) entries bs i :: transBatches trB entries bs hbs (i + bs)
      else [] := by
  rw [transBatches]

theorem batchesFrom_eq (entries : List PEntry) (bs : Nat) (hbs : 0 < bs) (i : Nat) :
    batchesFrom entries bs hbs i =
      if i < entries.length then
        (entries.drop i).take bs :: batchesFrom entries bs hbs (i + bs)
      else [] := by
  rw [batchesFrom]

theorem transOne_length (trBi : List PyVal → List PyVal) (entries : List PEntry)
    (bs i : Nat) :
    (transOne trBi entries bs i).length = min bs (entries.length - i) := by
  simp [transOne]

theorem batchStep_spec (trBi : List PyVal → List PyVal) (entries : List PEntry)
    (bs i : Nat) (s : St) :
    batchStep trBi entries bs i s =
      { done := s.done ++ transOne trBi entries bs i,
        ckpt := .content (ckptJson (s.done ++ transOne trBi entries bs i)),
        out := some (s.done ++ transOne trBi entries bs i),
        saves := s.saves + 1, calls := s.calls + 1 } := rfl

theorem runFrom_spec (trB : Nat → List PyVal → List PyVal) (entries : List PEntry)
    (bs : Nat) (hbs : 0 < bs) : ∀ (i : Nat) (s : St),
    (transBatches trB entries bs hbs i = [] → runFrom trB entries bs hbs i s = s) ∧
      (transBatches trB entries bs hbs i ≠ [] →
        runFrom trB entries bs hbs i s =
          { done := s.done ++ (transBatches trB entries bs hbs i).flatten,
            ckpt := .content (ckptJson
              (s.done ++ (transBatches trB entries bs hbs i).flatten)),
            out := some (s.done ++ (transBatches trB entries bs hbs i).flatten),
            saves := s.saves + (transBatches trB entries bs hbs i).length,
            calls := s.calls + (transBatches trB entries bs hbs i).length }) := by
  intro i s
  by_cases h : i < entries.length
  · have hT : transBatches trB entries bs hbs i =
        transOne (trB i) entries bs i :: transBatches trB entries bs hbs (i + bs) := by
      rw [transBatches_eq, if_pos h]
    refine ⟨fun hc => absurd (hT ▸ hc) (List.cons_ne_nil _ _), fun _ => ?_⟩
    rw [runFrom_eq, if_pos h, hT]
    obtain ⟨hnil, hcons⟩ :=
      runFrom_spec trB entries bs hbs (i + bs) (batchStep (trB i) entries bs i s)
    by_cases h2 : transBatches trB entries bs hbs (i + bs) = []
    · rw [hnil h2, batchStep_spec, h2]
      simp
    · rw [hcons h2, batchStep_spec]
      simp only [St.mk.injEq, List.flatten_cons, List.append_assoc, List.length_cons]
      refine ⟨trivial, trivial, trivial, by omega, by omega⟩
  · have hT : transBatches trB entries bs hbs i = [] := by
      rw [transBatches_eq, if_neg h]
    exact ⟨fun _ => by rw [runFrom_eq, if_neg h], fun hc => absurd hT hc⟩
termination_by i => entries.length - i
decreasing_by omega

theorem runFrom_eq_loopSteps (trB : Nat → List PyVal → List PyVal) (entries : List PEntry)
    (bs : Nat) (hbs : 0 < bs) : ∀ (k i : Nat) (s : St),
    entries.length ≤ i + k * bs →
    runFrom trB entries bs hbs i s = (loopSteps trB entries bs k i s).2 := by
  intro k
  induction k with
  | zero =>
    intro i s h
    rw [runFrom_eq, if_neg (by omega)]
    rfl
  | succ k ih =>
    intro i s h
    rw [runFrom_eq]
    by_cases hi : i < entries.length
    · rw [if_pos hi]
      have hh : i + (k + 1) * bs = (i + bs) + k * bs := by ring
      rw [ih (i + bs) (batchStep (trB i) entries bs i s) (by omega)]
      simp only [loopSteps, if_pos hi]
    · rw [if_neg hi]
      simp only [loopSteps, if_neg hi]

theorem runFrom_as_loopSteps (trB : Nat → List PyVal → List PyVal) (entries : List PEntry)
    (bs : Nat) (hbs : 0 < bs) (i : Nat) (s : St) :
    runFrom trB entries bs hbs i s = (loopSteps trB entries bs entries.length i s).2 := by
  apply runFrom_eq_loopSteps _ _ _ hbs
  have := Nat.mul_le_mul_left entries.length hbs
  omega

theorem runFrom_continue (trB : Nat → List PyVal → List PyVal) (entries : List PEntry)
    (bs : Nat) (hbs : 0 < bs) : ∀ (k i : Nat) (s : St),
    runFrom trB entries bs hbs i s =
      runFrom trB entries bs hbs (loopSteps trB entries bs k i s).1
        (loopSteps trB entries bs k i s).2 := by
  intro k
  induction k with
  | zero => intro i s; rfl
  | succ k ih =>
    intro i s
    by_cases hi : i < entries.length
    · rw [runFrom_eq, if_pos hi, ih (i + bs) (batchStep (trB i) entries bs i s)]
      simp only [loopSteps, if_pos hi]
    · simp only [loopSteps, if_neg hi]

theorem loopSteps_real (trB : Nat → List PyVal → List PyVal) (entries : List PEntry)
    (bs : Nat) : ∀ (m i : Nat) (s : St),
    (∀ j, j < m → i + j * bs < entries.length) →
    (loopSteps trB entries bs m i s).1 = i + m * bs ∧
    (loopSteps trB entries bs m i s).2.done.length =
      s.done.length + (min (i + m * bs) entries.length - i) ∧
    (loopSteps trB entries bs m i s).2.saves = s.saves + m ∧
    (loopSteps trB entries bs m i s).2.calls = s.calls + m ∧
    (0 < m →
      (loopSteps trB entries bs m i s).2.ckpt =
        .content (ckptJson (loopSteps trB entries bs m i s).2.done) ∧
      (loopSteps trB entries bs m i s).2.out =
        some (loopSteps trB entries bs m i s).2.done) := by
  intro m
  induction m with
  | zero =>
    intro i s _
    refine ⟨by simp [loopSteps], ?_, by simp [loopSteps], by simp [loopSteps], by omega⟩
    simp only [loopSteps]
    omega
  | succ m ih =>
    intro i s h
    have hi : i < entries.length := by simpa using h 0 (by omega)
    simp only [loopSteps, if_pos hi]
    have hh : i + (m + 1) * bs = (i + bs) + m * bs := by ring
    obtain ⟨h1, h2, h3, h4, h5⟩ := ih (i + bs) (batchStep (trB i) entries bs i s)
      (fun j hj => by
        have := h (j + 1) (by omega)
        have hh2 : i + (j + 1) * bs = (i + bs) + j * bs := by ring
        omega)
    have hstep_done : (batchStep (trB i) entries bs i s).done.length =
        s.done.length + min bs (entries.length - i) := by
      rw [batchStep_spec]
      simp [transOne_length]
    have hstep_saves : (batchStep (trB i) entries bs i s).saves = s.saves + 1 := rfl
    have hstep_calls : (batchStep (trB i) entries bs i s).calls = s.calls + 1 := rfl
    refine ⟨by omega, ?_, by omega, by omega, fun _ => ?_⟩
    · rw [h2, hstep_done]
      omega
    · rcases Nat.eq_zero_or_pos m with rfl | hm
      · exact ⟨rfl, rfl⟩
      · exact h5 hm

theorem entryOfPy_pyOfEntry (e : PEntry) : entryOfPy (pyOfEntry e) = .ok e := rfl

theorem loadCheckpoint_ckptJson (C : List PEntry) :
    loadCheckpoint (.content (ckptJson C)) = C := by
  have hm : ∀ (l : List PEntry), mapEntries (l.map pyOfEntry) = Except.ok l := by
    intro l
    induction l with
    | nil => rfl
    | cons e tl ih =>
      simp only [List.map_cons, mapEntries, entryOfPy_pyOfEntry, ih]
  show (match buildEntries (ckptJson C) with | .ok es => es | .error _ => []) = C
  unfold buildEntries ckptJson
  dsimp only [iterItems]
  rw [hm]

theorem translateFile_eval (trB : Nat → List PyVal → List PyVal) (entries : List PEntry)
    (bs : Nat) (hbs : 0 < bs) (ckpt0 : CkptFile) (out0 : Option (List PEntry))
    (removeOk : Bool) :
    translateFile trB entries bs hbs ckpt0 out0 removeOk =
      finishRun removeOk (loadCheckpoint ckpt0).length
        ((loopSteps trB entries bs entries.length (loadCheckpoint ckpt0).length
          ⟨loadCheckpoint ckpt0, ckpt0, out0, 0, 0⟩).2) := by
  unfold translateFile
  rw [runFrom_as_loopSteps]

/-!
## Claims C8 and C10
-/

/-- Claim C8: `_load_checkpoint` fails soft.  It returns the empty sequence
when no checkpoint file exists and when the stored data is unreadable or
corrupt (any value whose record extraction fails), and it never raises: the
embedding is a total function into plain lists whose every outcome is either
the empty list or the well-decoded entries. -/
theorem claim_C8 (f : CkptFile) :
    loadCheckpoint .absent = [] ∧
      loadCheckpoint .unreadable = [] ∧
      (∀ v, f = .content v → buildEntries v = .error () → loadCheckpoint f = []) ∧
      (loadCheckpoint f = [] ∨
        ∃ v es, f = .content v ∧ buildEntries v = .ok es ∧ loadCheckpoint f = es) := by
  refine ⟨rfl, rfl, ?_, ?_⟩
  · rintro v rfl herr
    show (match buildEntries v with | .ok es => es | .error _ => []) = []
    rw [herr]
  · cases f with
    | absent => exact Or.inl rfl
    | unreadable => exact Or.inl rfl
    | content v =>
      cases hb : buildEntries v with
      | error e =>
        refine Or.inl ?_
        show (match buildEntries v with | .ok es => es | .error _ => []) = []
        rw [hb]
      | ok es =>
        refine Or.inr ⟨v, es, rfl, hb, ?_⟩
        show (match buildEntries v with | .ok es => es | .error _ => []) = es
        rw [hb]

/-- Witness for C8: a checkpoint file holding the JSON number `0` (not a
list of records) loads as the empty sequence, as does a missing file. -/
theorem claim_C8_witness :
    loadCheckpoint (.content (.pyInt 0)) = [] ∧ loadCheckpoint .absent = [] :=
  ⟨(claim_C8 (.content (.pyInt 0))).2.2.1 (.pyInt 0) rfl rfl, (claim_C8 .absent).1⟩

/-- Claim C10: degenerate resume.  When the loaded checkpoint holds at least
as many entries as the parsed input, `translate_file` makes no service call,
never writes the output file (it is left exactly as found), still deletes
the checkpoint file, and returns the checkpoint entries unchanged — also
when the checkpoint is strictly longer than the input, in which case the
returned sequence is longer than the input and is not validated against
it. -/
theorem claim_C10 (trB : Nat → List PyVal → List PyVal) (entries : List PEntry)
    (bs : Nat) (hbs : 0 < bs) (ckpt0 : CkptFile) (out0 : Option (List PEntry))
    (hge : entries.length ≤ (loadCheckpoint ckpt0).length) :
    translateFile trB entries bs hbs ckpt0 out0 true =
      .ok ⟨loadCheckpoint ckpt0, .absent, out0, (loadCheckpoint ckpt0).length, 0, 0⟩ := by
  unfold translateFile
  rw [runFrom_eq, if_neg (by omega)]
  cases ckpt0 with
  | absent => rfl
  | unreadable => rfl
  | content v => rfl

/-- Witness for C10: a 3-entry checkpoint against a 2-entry input is
returned unchanged, with no service call and the output file untouched. -/
theorem claim_C10_witness :
    translateFile (fun _ texts => texts)
        [⟨.pyInt 1, .pyStr [], .pyStr [], .pyStr "a".data⟩,
         ⟨.pyInt 2, .pyStr [], .pyStr [], .pyStr "b".data⟩]
        10 (by decide)
        (.content (ckptJson
          [⟨.pyInt 1, .pyStr [], .pyStr [], .pyStr "x".data⟩,
           ⟨.pyInt 2, .pyStr [], .pyStr [], .pyStr "y".data⟩,
           ⟨.pyInt 7, .pyStr [], .pyStr [], .pyStr "z".data⟩]))
        (some [⟨.pyInt 9, .pyStr [], .pyStr [], .pyStr "old".data⟩]) true =
      .ok ⟨loadCheckpoint (.content (ckptJson
          [⟨.pyInt 1, .pyStr [], .pyStr [], .pyStr "x".data⟩,
           ⟨.pyInt 2, .pyStr [], .pyStr [], .pyStr "y".data⟩,
           ⟨.pyInt 7, .pyStr [], .pyStr [], .pyStr "z".data⟩])),
        .absent, some [⟨.pyInt 9, .pyStr [], .pyStr [], .pyStr "old".data⟩],
        (loadCheckpoint (.content (ckptJson
          [⟨.pyInt 1, .pyStr [], .pyStr [], .pyStr "x".data⟩,
           ⟨.pyInt 2, .pyStr [], .pyStr [], .pyStr "y".data⟩,
           ⟨.pyInt 7, .pyStr [], .pyStr [], .pyStr "z".data⟩]))).length, 0, 0⟩ :=
  claim_C10 _ _ _ (by decide) _ _ (by decide)

/-!
## Claim C9 and its helper
-/

/-- Success path of `translate_file` when the final `os.remove` succeeds:
the call returns, the checkpoint file ends deleted, and the returned
sequence is the loaded checkpoint followed by every remaining batch's
translation, with one service call and one checkpoint save per batch. -/
theorem translateFile_ok (trB : Nat → List PyVal → List PyVal) (entries : List PEntry)
    (bs : Nat) (hbs : 0 < bs) (ckpt0 : CkptFile) (out0 : Option (List PEntry)) :
    ∃ r, translateFile trB entries bs hbs ckpt0 out0 true = .ok r ∧
      r.ckpt = .absent ∧
      r.returned = loadCheckpoint ckpt0 ++
        (transBatches trB entries bs hbs (loadCheckpoint ckpt0).length).flatten ∧
      r.calls = (transBatches trB entries bs hbs (loadCheckpoint ckpt0).length).length ∧
      r.saves = (transBatches trB entries bs hbs (loadCheckpoint ckpt0).length).length ∧
      r.resumedAt = (loadCheckpoint ckpt0).length ∧
      (transBatches trB entries bs hbs (loadCheckpoint ckpt0).length = [] →
        r.out = out0) ∧
      (transBatches trB entries bs hbs (loadCheckpoint ckpt0).length ≠ [] →
        r.out = some r.returned) := by
  obtain ⟨hnil, hcons⟩ := runFrom_spec trB entries bs hbs (loadCheckpoint ckpt0).length
    ⟨loadCheckpoint ckpt0, ckpt0, out0, 0, 0⟩
  unfold translateFile
  by_cases hT : transBatches trB entries bs hbs (loadCheckpoint ckpt0).length = []
  · rw [hnil hT, hT]
    cases ckpt0 with
    | absent =>
      exact ⟨_, rfl, rfl, by simp, by simp, by simp, rfl, fun _ => rfl,
        fun hc => absurd rfl hc⟩
    | unreadable =>
      exact ⟨_, rfl, rfl, by simp, by simp, by simp, rfl, fun _ => rfl,
        fun hc => absurd rfl hc⟩
    | content v =>
      exact ⟨_, rfl, rfl, by simp, by simp, by simp, rfl, fun _ => rfl,
        fun hc => absurd rfl hc⟩
  · rw [hcons hT]
    exact ⟨_, rfl, rfl, rfl, by simp, by simp, rfl, fun hc => absurd hc hT,
      fun _ => rfl⟩

/-- Claim C9 (amended): after the last batch `translate_file` deletes the
checkpoint file (if present) and returns the full translated sequence, and
on full success with a 5-entry input and `batch_size = 10` exactly one batch
(one service call) is processed and the checkpoint file is deleted — but a
failure of the checkpoint deletion is fatal: `os.remove` is not wrapped in
any `try`, so its error propagates out of `translate_file` (see the
counterexample). -/
theorem claim_C9_thm (trB : Nat → List PyVal → List PyVal) (entries : List PEntry)
    (bs : Nat) (hbs : 0 < bs) (ckpt0 : CkptFile) (out0 : Option (List PEntry)) :
    (∃ r, translateFile trB entries bs hbs ckpt0 out0 true = .ok r ∧
      r.ckpt = .absent ∧
      r.returned = loadCheckpoint ckpt0 ++
        (transBatches trB entries bs hbs (loadCheckpoint ckpt0).length).flatten) ∧
    (entries.length = 5 → bs = 10 → ckpt0 = .absent →
      ∃ r, translateFile trB entries bs hbs ckpt0 out0 true = .ok r ∧
        r.calls = 1 ∧ r.ckpt = .absent) := by
  constructor
  · obtain ⟨r, h1, h2, h3, -⟩ := translateFile_ok trB entries bs hbs ckpt0 out0
    exact ⟨r, h1, h2, h3⟩
  · rintro h5 rfl rfl
    obtain ⟨r, h1, h2, -, h4, -⟩ := translateFile_ok trB entries 10 hbs .absent out0
    refine ⟨r, h1, ?_, h2⟩
    rw [h4]
    show (transBatches trB entries 10 hbs (loadCheckpoint .absent).length).length = 1
    rw [show loadCheckpoint .absent = [] from rfl]
    rw [transBatches_eq, if_pos (by simp [h5]), transBatches_eq,
      if_neg (by simp [h5]), List.length_cons, List.length_nil]

/-- Counterexample to claim C9 as stated ("deletion failure is non-fatal"):
for a 1-entry input with an identity translator, when the final `os.remove`
of the checkpoint file fails, `translate_file` raises instead of returning
the translated sequence. -/
theorem claim_C9_counterexample :
    translateFile (fun _ texts => texts)
        [⟨.pyInt 1, .pyStr [], .pyStr [], .pyStr "a".data⟩]
        1 (by decide) .absent none false = .error () := by
  rw [translateFile_eval]
  rfl

/-- Witness for C9: a concrete 5-entry input with `batch_size = 10`
processes exactly one batch and ends with the checkpoint deleted. -/
theorem claim_C9_witness :
    ∃ r, translateFile (fun _ texts => texts)
        [⟨.pyInt 1, .pyStr [], .pyStr [], .pyStr "a".data⟩,
         ⟨.pyInt 2, .pyStr [], .pyStr [], .pyStr "b".data⟩,
         ⟨.pyInt 3, .pyStr [], .pyStr [], .pyStr "c".data⟩,
         ⟨.pyInt 4, .pyStr [], .pyStr [], .pyStr "d".data⟩,
         ⟨.pyInt 5, .pyStr [], .pyStr [], .pyStr "e".data⟩]
        10 (by decide) .absent none true = .ok r ∧ r.calls = 1 ∧ r.ckpt = .absent :=
  (claim_C9_thm (fun _ texts => texts)
    [⟨.pyInt 1, .pyStr [], .pyStr [], .pyStr "a".data⟩,
     ⟨.pyInt 2, .pyStr [], .pyStr [], .pyStr "b".data⟩,
     ⟨.pyInt 3, .pyStr [], .pyStr [], .pyStr "c".data⟩,
     ⟨.pyInt 4, .pyStr [], .pyStr [], .pyStr "d".data⟩,
     ⟨.pyInt 5, .pyStr [], .pyStr [], .pyStr "e".data⟩]
    10 (by decide) .absent none).2 rfl rfl rfl

/-!
## Claim C6: the batch partition
-/

theorem batchesFrom_flatten (entries : List PEntry) (bs : Nat) (hbs : 0 < bs) : ∀ i,
    (batchesFrom entries bs hbs i).flatten = entries.drop i := by
  intro i
  by_cases h : i < entries.length
  · rw [batchesFrom_eq, if_pos h, List.flatten_cons, batchesFrom_flatten entries bs hbs (i + bs),
      show entries.drop (i + bs) = (entries.drop i).drop bs from by
        rw [List.drop_drop, Nat.add_comm]]
    exact List.take_append_drop bs (entries.drop i)
  · rw [batchesFrom_eq, if_neg h]
    show ([] : List PEntry) = entries.drop i
    symm
    exact List.drop_eq_nil_of_le (by omega)
termination_by i => entries.length - i
decreasing_by omega

theorem batchesFrom_mem (entries : List PEntry) (bs : Nat) (hbs : 0 < bs) : ∀ i b,
    b ∈ batchesFrom entries bs hbs i → b ≠ [] ∧ b.length ≤ bs := by
  intro i b hb
  by_cases h : i < entries.length
  · rw [batchesFrom_eq, if_pos h] at hb
    rcases List.mem_cons.mp hb with rfl | hb'
    · constructor
      · have : ((entries.drop i).take bs).length = min bs (entries.length - i) := by simp
        intro hc
        rw [hc] at this
        simp at this
        omega
      · simp
    · exact batchesFrom_mem entries bs hbs (i + bs) b hb'
  · rw [batchesFrom_eq, if_neg h] at hb
    simp at hb
termination_by i => entries.length - i
decreasing_by omega

theorem batchesFrom_dropLast (entries : List PEntry) (bs : Nat) (hbs : 0 < bs) : ∀ i b,
    b ∈ (batchesFrom entries bs hbs i).dropLast → b.length = bs := by
  intro i b hb
  by_cases h : i < entries.length
  · rw [batchesFrom_eq, if_pos h] at hb
    by_cases h2 : i + bs < entries.length
    · have hrest : batchesFrom entries bs hbs (i + bs) ≠ [] := by
        rw [batchesFrom_eq, if_pos h2]
        simp
      rw [List.dropLast_cons_of_ne_nil hrest] at hb
      rcases List.mem_cons.mp hb with rfl | hb'
      · simp
        omega
      · exact batchesFrom_dropLast entries bs hbs (i + bs) b hb'
    · have hrest : batchesFrom entries bs hbs (i + bs) = [] := by
        rw [batchesFrom_eq, if_neg h2]
      rw [hrest] at hb
      simp at hb
  · rw [batchesFrom_eq, if_neg h] at hb
    simp at hb
termination_by i => entries.length - i
decreasing_by omega

theorem batchesFrom_getQ (entries : List PEntry) (bs : Nat) (hbs : 0 < bs) : ∀ i k,
    k < (batchesFrom entries bs hbs i).length →
    (batchesFrom entries bs hbs i)[k]? = some ((entries.drop (i + k * bs)).take bs) := by
  intro i k hk
  by_cases h : i < entries.length
  · rw [batchesFrom_eq, if_pos h] at hk ⊢
    cases k with
    | zero => simp
    | succ k =>
      rw [List.getElem?_cons_succ]
      rw [batchesFrom_getQ entries bs hbs (i + bs) k (by simpa using hk)]
      have : i + bs + k * bs = i + (k + 1) * bs := by ring
      rw [this]
  · rw [batchesFrom_eq, if_neg h] at hk
    simp at hk
termination_by i => entries.length - i
decreasing_by omega

theorem transBatches_length_eq (trB : Nat → List PyVal → List PyVal) (entries : List PEntry)
    (bs : Nat) (hbs : 0 < bs) : ∀ i,
    (transBatches trB entries bs hbs i).length = (batchesFrom entries bs hbs i).length := by
  intro i
  by_cases h : i < entries.length
  · rw [transBatches_eq, if_pos h, batchesFrom_eq, if_pos h, List.length_cons,
      List.length_cons, transBatches_length_eq trB entries bs hbs (i + bs)]
  · rw [transBatches_eq, if_neg h, batchesFrom_eq, if_neg h]
termination_by i => entries.length - i
decreasing_by omega

theorem runFrom_done (trB : Nat → List PyVal → List PyVal) (entries : List PEntry)
    (bs : Nat) (hbs : 0 < bs) (i : Nat) (s : St) :
    (runFrom trB entries bs hbs i s).done =
      s.done ++ (transBatches trB entries bs hbs i).flatten := by
  obtain ⟨hnil, hcons⟩ := runFrom_spec trB entries bs hbs i s
  by_cases hT : transBatches trB entries bs hbs i = []
  · rw [hnil hT, hT]
    simp
  · rw [hcons hT]

/-- Claim C6: the loop of `translate_file` processes the entry sequence from
the resume point in the contiguous slices `entries[i : min(i+batch_size, n)]`
stepping by `batch_size`: the slices are each non-empty with at most
`batch_size` entries, only the final one may be smaller, the `k`-th slice
starts exactly at `i0 + k*batch_size`, their concatenation in processing
order is exactly the remaining entry sequence (no gaps, no overlaps, every
remaining entry exactly once, order preserved), and the pipeline's
accumulated result appends exactly one translated batch per slice in the
same order. -/
theorem claim_C6 (entries : List PEntry) (bs : Nat) (hbs : 0 < bs) (i0 : Nat) :
    (batchesFrom entries bs hbs i0).flatten = entries.drop i0 ∧
      (∀ b ∈ batchesFrom entries bs hbs i0, b ≠ [] ∧ b.length ≤ bs) ∧
      (∀ b ∈ (batchesFrom entries bs hbs i0).dropLast, b.length = bs) ∧
      (∀ k, k < (batchesFrom entries bs hbs i0).length →
        (batchesFrom entries bs hbs i0)[k]? =
          some ((entries.drop (i0 + k * bs)).take bs)) ∧
      ∀ (trB : Nat → List PyVal → List PyVal) (s : St),
        (runFrom trB entries bs hbs i0 s).done =
          s.done ++ (transBatches trB entries bs hbs i0).flatten ∧
        (transBatches trB entries bs hbs i0).length =
          (batchesFrom entries bs hbs i0).length :=
  ⟨batchesFrom_flatten entries bs hbs i0,
    batchesFrom_mem entries bs hbs i0,
    batchesFrom_dropLast entries bs hbs i0,
    batchesFrom_getQ entries bs hbs i0,
    fun trB s => ⟨runFrom_done trB entries bs hbs i0 s,
      transBatches_length_eq trB entries bs hbs i0⟩⟩

/-- Witness for C6 at a concrete 5-entry sequence with `batch_size = 2` and
resume point 0. -/
theorem claim_C6_witness :
    (batchesFrom
        [⟨.pyInt 1, .pyStr [], .pyStr [], .pyStr "a".data⟩,
         ⟨.pyInt 2, .pyStr [], .pyStr [], .pyStr "b".data⟩,
         ⟨.pyInt 3, .pyStr [], .pyStr [], .pyStr "c".data⟩,
         ⟨.pyInt 4, .pyStr [], .pyStr [], .pyStr "d".data⟩,
         ⟨.pyInt 5, .pyStr [], .pyStr [], .pyStr "e".data⟩] 2 (by decide) 0).flatten =
      ([⟨.pyInt 1, .pyStr [], .pyStr [], .pyStr "a".data⟩,
        ⟨.pyInt 2, .pyStr [], .pyStr [], .pyStr "b".data⟩,
        ⟨.pyInt 3, .pyStr [], .pyStr [], .pyStr "c".data⟩,
        ⟨.pyInt 4, .pyStr [], .pyStr [], .pyStr "d".data⟩,
        ⟨.pyInt 5, .pyStr [], .pyStr [], .pyStr "e".data⟩] : List PEntry).drop 0 :=
  (claim_C6 _ 2 (by decide) 0).1

/-!
## Claims C5 and C7: checkpoint contents and resume
-/

theorem runFrom_calls (trB : Nat → List PyVal → List PyVal) (entries : List PEntry)
    (bs : Nat) (hbs : 0 < bs) (i : Nat) (s : St) :
    (runFrom trB entries bs hbs i s).calls =
      s.calls + (transBatches trB entries bs hbs i).length := by
  obtain ⟨hnil, hcons⟩ := runFrom_spec trB entries bs hbs i s
  by_cases hT : transBatches trB entries bs hbs i = []
  · rw [hnil hT, hT]
    simp
  · rw [hcons hT]

/-- Claim C5: starting from an empty checkpoint, after the pipeline
completes batch `k` (the `k+1`-st loop iteration) the persisted checkpoint
file holds exactly the first `min((k+1)*batch_size, entry_count)` translated
entries — the prefix of the full run's output of that length — and the
checkpoint has been written exactly once per completed batch. -/
theorem claim_C5 (trB : Nat → List PyVal → List PyVal) (entries : List PEntry)
    (bs : Nat) (hbs : 0 < bs) (out0 : Option (List PEntry)) (k : Nat)
    (hk : k * bs < entries.length) :
    (loopSteps trB entries bs (k + 1) 0 ⟨[], .absent, out0, 0, 0⟩).2.ckpt =
      .content (ckptJson
        ((runFrom trB entries bs hbs 0 ⟨[], .absent, out0, 0, 0⟩).done.take
          (min ((k + 1) * bs) entries.length))) ∧
      loadCheckpoint (loopSteps trB entries bs (k + 1) 0 ⟨[], .absent, out0, 0, 0⟩).2.ckpt =
        (runFrom trB entries bs hbs 0 ⟨[], .absent, out0, 0, 0⟩).done.take
          (min ((k + 1) * bs) entries.length) ∧
      ((runFrom trB entries bs hbs 0 ⟨[], .absent, out0, 0, 0⟩).done.take
          (min ((k + 1) * bs) entries.length)).length =
        min ((k + 1) * bs) entries.length ∧
      (loopSteps trB entries bs (k + 1) 0 ⟨[], .absent, out0, 0, 0⟩).2.saves = k + 1 := by
  set init : St := (⟨[], .absent, out0, 0, 0⟩ : St) with hinit
  have hreal : ∀ j, j < k + 1 → 0 + j * bs < entries.length := by
    intro j hj
    have : j * bs ≤ k * bs := Nat.mul_le_mul_right bs (by omega)
    omega
  obtain ⟨h1, h2, h3, h4, h5⟩ := loopSteps_real trB entries bs (k + 1) 0 init hreal
  obtain ⟨hck, hout⟩ := h5 (by omega)
  set st := (loopSteps trB entries bs (k + 1) 0 init).2 with hst
  have hlen : st.done.length = min ((k + 1) * bs) entries.length := by
    simpa [hinit] using h2
  have hfd : (runFrom trB entries bs hbs 0 init).done =
      st.done ++ (transBatches trB entries bs hbs
        (loopSteps trB entries bs (k + 1) 0 init).1).flatten := by
    rw [runFrom_continue trB entries bs hbs (k + 1) 0 init]
    exact runFrom_done trB entries bs hbs _ _
  have htake : (runFrom trB entries bs hbs 0 init).done.take
      (min ((k + 1) * bs) entries.length) = st.done := by
    rw [hfd, ← hlen]
    exact List.take_left' rfl
  refine ⟨?_, ?_, ?_, by simpa [hinit] using h3⟩
  · rw [htake]
    exact hck
  · rw [htake, hck, loadCheckpoint_ckptJson]
  · rw [htake]
    exact hlen

/-- Witness for C5: a concrete 3-entry run with `batch_size = 2`, after the
first batch. -/
theorem claim_C5_witness :
    (loopSteps (fun _ texts => texts)
        [⟨.pyInt 1, .pyStr [], .pyStr [], .pyStr "a".data⟩,
         ⟨.pyInt 2, .pyStr [], .pyStr [], .pyStr "b".data⟩,
         ⟨.pyInt 3, .pyStr [], .pyStr [], .pyStr "c".data⟩] 2 (0 + 1) 0
        ⟨[], .absent, none, 0, 0⟩).2.ckpt =
      .content (ckptJson
        ((runFrom (fun _ texts => texts)
            [⟨.pyInt 1, .pyStr [], .pyStr [], .pyStr "a".data⟩,
             ⟨.pyInt 2, .pyStr [], .pyStr [], .pyStr "b".data⟩,
             ⟨.pyInt 3, .pyStr [], .pyStr [], .pyStr "c".data⟩] 2 (by decide) 0
            ⟨[], .absent, none, 0, 0⟩).done.take
          (min ((0 + 1) * 2)
            ([⟨.pyInt 1, .pyStr [], .pyStr [], .pyStr "a".data⟩,
              ⟨.pyInt 2, .pyStr [], .pyStr [], .pyStr "b".data⟩,
              ⟨.pyInt 3, .pyStr [], .pyStr [], .pyStr "c".data⟩] : List PEntry).length))) :=
  (claim_C5 (fun _ texts => texts)
    [⟨.pyInt 1, .pyStr [], .pyStr [], .pyStr "a".data⟩,
     ⟨.pyInt 2, .pyStr [], .pyStr [], .pyStr "b".data⟩,
     ⟨.pyInt 3, .pyStr [], .pyStr [], .pyStr "c".data⟩] 2 (by decide) none 0 (by decide)).1

/-- Claim C7: idempotence of resume.  Interrupt a run after batch `k`
completes (state `sk`), rerun `translate_file` with identical arguments
against the files that run left behind (checkpoint = `sk`'s entries, output
file as `sk` wrote it): the rerun succeeds, returns exactly the sequence of
the uninterrupted run, leaves the output file holding that same sequence,
resumes exactly at the length of the persisted checkpoint (the first
untranslated batch), and performs exactly `k+1` fewer service calls than the
uninterrupted run — batches `0..k` are not re-translated. -/
theorem claim_C7 (trB : Nat → List PyVal → List PyVal) (entries : List PEntry)
    (bs : Nat) (hbs : 0 < bs) (out0 : Option (List PEntry)) (k : Nat)
    (hk : k * bs < entries.length) :
    ∃ r, translateFile trB entries bs hbs
        (.content (ckptJson
          (loopSteps trB entries bs (k + 1) 0 ⟨[], .absent, out0, 0, 0⟩).2.done))
        (loopSteps trB entries bs (k + 1) 0 ⟨[], .absent, out0, 0, 0⟩).2.out
        true = .ok r ∧
      r.returned = (runFrom trB entries bs hbs 0 ⟨[], .absent, out0, 0, 0⟩).done ∧
      r.out = some (runFrom trB entries bs hbs 0 ⟨[], .absent, out0, 0, 0⟩).done ∧
      r.resumedAt =
        (loopSteps trB entries bs (k + 1) 0 ⟨[], .absent, out0, 0, 0⟩).2.done.length ∧
      r.calls + (k + 1) = (runFrom trB entries bs hbs 0 ⟨[], .absent, out0, 0, 0⟩).calls := by
  set init : St := (⟨[], .absent, out0, 0, 0⟩ : St) with hinit
  have hreal : ∀ j, j < k + 1 → 0 + j * bs < entries.length := by
    intro j hj
    have : j * bs ≤ k * bs := Nat.mul_le_mul_right bs (by omega)
    omega
  obtain ⟨h1, h2, h3, h4, h5⟩ := loopSteps_real trB entries bs (k + 1) 0 init hreal
  obtain ⟨hck, hout⟩ := h5 (by omega)
  set st := (loopSteps trB entries bs (k + 1) 0 init).2 with hst
  set full := runFrom trB entries bs hbs 0 init with hfull
  have hlen : st.done.length = min ((k + 1) * bs) entries.length := by
    simpa [hinit] using h2
  have hcounter : (loopSteps trB entries bs (k + 1) 0 init).1 = (k + 1) * bs := by
    simpa using h1
  have hstcalls : st.calls = k + 1 := by simpa [hinit] using h4
  have halign : transBatches trB entries bs hbs st.done.length =
      transBatches trB entries bs hbs ((k + 1) * bs) := by
    by_cases hbig : (k + 1) * bs ≤ entries.length
    · rw [hlen, min_eq_left hbig]
    · rw [hlen, min_eq_right (by omega), transBatches_eq, if_neg (by omega),
        transBatches_eq, if_neg (by omega)]
  have hcont : full = runFrom trB entries bs hbs ((k + 1) * bs) st := by
    rw [hfull, runFrom_continue trB entries bs hbs (k + 1) 0 init, hcounter]
  unfold translateFile
  rw [loadCheckpoint_ckptJson]
  set T := transBatches trB entries bs hbs st.done.length with hT
  have hfdone : full.done = st.done ++ T.flatten := by
    rw [hcont, runFrom_done trB entries bs hbs ((k + 1) * bs) st, ← halign]
  have hfcalls : full.calls = st.calls + T.length := by
    rw [hcont, runFrom_calls trB entries bs hbs ((k + 1) * bs) st, ← halign]
  obtain ⟨hnil, hcons⟩ := runFrom_spec trB entries bs hbs st.done.length
    ⟨st.done, .content (ckptJson st.done), st.out, 0, 0⟩
  by_cases hTe : T = []
  · rw [hnil hTe]
    refine ⟨_, rfl, ?_, ?_, rfl, ?_⟩
    · rw [hfdone, hTe]
      simp
    · rw [hout, hfdone, hTe]
      simp
    · rw [hfcalls, hTe, hstcalls]
      simp
  · rw [hcons hTe]
    refine ⟨_, rfl, ?_, ?_, rfl, ?_⟩
    · rw [hfdone]
    · rw [hfdone]
    · rw [hfcalls, hstcalls]
      dsimp only
      rw [← hT]
      omega

/-- Witness for C7: the concrete 3-entry, `batch_size = 2` run interrupted
after its first batch resumes to the uninterrupted result. -/
theorem claim_C7_witness :
    ∃ r, translateFile (fun _ texts => texts)
        [⟨.pyInt 1, .pyStr [], .pyStr [], .pyStr "a".data⟩,
         ⟨.pyInt 2, .pyStr [], .pyStr [], .pyStr "b".data⟩,
         ⟨.pyInt 3, .pyStr [], .pyStr [], .pyStr "c".data⟩] 2 (by decide)
        (.content (ckptJson
          (loopSteps (fun _ texts => texts)
            [⟨.pyInt 1, .pyStr [], .pyStr [], .pyStr "a".data⟩,
             ⟨.pyInt 2, .pyStr [], .pyStr [], .pyStr "b".data⟩,
             ⟨.pyInt 3, .pyStr [], .pyStr [], .pyStr "c".data⟩] 2 (0 + 1) 0
            ⟨[], .absent, none, 0, 0⟩).2.done))
        (loopSteps (fun _ texts => texts)
          [⟨.pyInt 1, .pyStr [], .pyStr [], .pyStr "a".data⟩,
           ⟨.pyInt 2, .pyStr [], .pyStr [], .pyStr "b".data⟩,
           ⟨.pyInt 3, .pyStr [], .pyStr [], .pyStr "c".data⟩] 2 (0 + 1) 0
          ⟨[], .absent, none, 0, 0⟩).2.out
        true = .ok r ∧
      r.returned = (runFrom (fun _ texts => texts)
        [⟨.pyInt 1, .pyStr [], .pyStr [], .pyStr "a".data⟩,
         ⟨.pyInt 2, .pyStr [], .pyStr [], .pyStr "b".data⟩,
         ⟨.pyInt 3, .pyStr [], .pyStr [], .pyStr "c".data⟩] 2 (by decide) 0
        ⟨[], .absent, none, 0, 0⟩).done ∧
      r.out = some (runFrom (fun _ texts => texts)
        [⟨.pyInt 1, .pyStr [], .pyStr [], .pyStr "a".data⟩,
         ⟨.pyInt 2, .pyStr [], .pyStr [], .pyStr "b".data⟩,
         ⟨.pyInt 3, .pyStr [], .pyStr [], .pyStr "c".data⟩] 2 (by decide) 0
        ⟨[], .absent, none, 0, 0⟩).done ∧
      r.resumedAt = (loopSteps (fun _ texts => texts)
        [⟨.pyInt 1, .pyStr [], .pyStr [], .pyStr "a".data⟩,
         ⟨.pyInt 2, .pyStr [], .pyStr [], .pyStr "b".data⟩,
         ⟨.pyInt 3, .pyStr [], .pyStr [], .pyStr "c".data⟩] 2 (0 + 1) 0
        ⟨[], .absent, none, 0, 0⟩).2.done.length ∧
      r.calls + (0 + 1) = (runFrom (fun _ texts => texts)
        [⟨.pyInt 1, .pyStr [], .pyStr [], .pyStr "a".data⟩,
         ⟨.pyInt 2, .pyStr [], .pyStr [], .pyStr "b".data⟩,
         ⟨.pyInt 3, .pyStr [], .pyStr [], .pyStr "c".data⟩] 2 (by decide) 0
        ⟨[], .absent, none, 0, 0⟩).calls :=
  claim_C7 (fun _ texts => texts)
    [⟨.pyInt 1, .pyStr [], .pyStr [], .pyStr "a".data⟩,
     ⟨.pyInt 2, .pyStr [], .pyStr [], .pyStr "b".data⟩,
     ⟨.pyInt 3, .pyStr [], .pyStr [], .pyStr "c".data⟩] 2 (by decide) none 0 (by decide)

/-!
## Claim C1: hard transport failure in a later batch
-/

/-- Counterexample to claim C1 as stated: 3 entries, `batch_size = 2`,
batch 1's service call returns a good structured reply and batch 2's call
raises a hard transport error.  The error does not propagate out of the
pipeline: `_translate_batch_texts` catches it (lines 143-145) and
substitutes the original text, the run completes, the output file ends
holding all 3 entries — not exactly 2 — and the checkpoint file ends
deleted rather than holding the 2 completed entries, so a rerun would not
resume at entry 3. -/
theorem claim_C1_counterexample :
    (translateFile (fun i texts => translateBatchTexts (if i = 0 then
          .parsed (.pyList
            [.pyDict [("id".data, .pyInt 0), ("text".data, .pyStr "T1".data)],
             .pyDict [("id".data, .pyInt 1), ("text".data, .pyStr "T2".data)]])
          else .hardFail) texts)
        [⟨.pyInt 1, .pyStr "s1".data, .pyStr "e1".data, .pyStr "a".data⟩,
         ⟨.pyInt 2, .pyStr "s2".data, .pyStr "e2".data, .pyStr "b".data⟩,
         ⟨.pyInt 3, .pyStr "s3".data, .pyStr "e3".data, .pyStr "c".data⟩]
        2 (by decide) .absent none true =
      .ok ⟨[⟨.pyInt 1, .pyStr "s1".data, .pyStr "e1".data, .pyStr "T1".data⟩,
            ⟨.pyInt 2, .pyStr "s2".data, .pyStr "e2".data, .pyStr "T2".data⟩,
            ⟨.pyInt 3, .pyStr "s3".data, .pyStr "e3".data, .pyStr "c".data⟩],
           .absent,
           some [⟨.pyInt 1, .pyStr "s1".data, .pyStr "e1".data, .pyStr "T1".data⟩,
                 ⟨.pyInt 2, .pyStr "s2".data, .pyStr "e2".data, .pyStr "T2".data⟩,
                 ⟨.pyInt 3, .pyStr "s3".data, .pyStr "e3".data, .pyStr "c".data⟩],
           0, 2, 2⟩) ∧
      ([⟨.pyInt 1, .pyStr "s1".data, .pyStr "e1".data, .pyStr "T1".data⟩,
        ⟨.pyInt 2, .pyStr "s2".data, .pyStr "e2".data, .pyStr "T2".data⟩,
        ⟨.pyInt 3, .pyStr "s3".data, .pyStr "e3".data, .pyStr "c".data⟩] :
          List PEntry).length = 3 ∧
      (3 : Nat) ≠ 2 ∧ CkptFile.absent ≠ CkptFile.content (ckptJson
        [⟨.pyInt 1, .pyStr "s1".data, .pyStr "e1".data, .pyStr "T1".data⟩,
         ⟨.pyInt 2, .pyStr "s2".data, .pyStr "e2".data, .pyStr "T2".data⟩]) := by
  refine ⟨?_, rfl, by decide, fun h => CkptFile.noConfusion h⟩
  rw [translateFile_eval]
  rfl

/-- Claim C1 (amended): in the same scenario — batch 1's service call
succeeds and batch 2's raises a hard transport error — the error is caught
inside `_translate_batch_texts` and does not propagate: a hard failure
makes the batch fall back to its original texts, the run completes with the
output file containing all 3 entries (the first 2 translated, the third
untranslated), the checkpoint file is deleted, and a rerun with identical
arguments starts over from entry 1 (resume point 0, both batches translated
again). -/
theorem claim_C1_thm :
    (∀ texts, translateBatchTexts .hardFail texts = texts) ∧
    (translateFile (fun i texts => translateBatchTexts (if i = 0 then
          .parsed (.pyList
            [.pyDict [("id".data, .pyInt 0), ("text".data, .pyStr "T1".data)],
             .pyDict [("id".data, .pyInt 1), ("text".data, .pyStr "T2".data)]])
          else .hardFail) texts)
        [⟨.pyInt 1, .pyStr "s1".data, .pyStr "e1".data, .pyStr "a".data⟩,
         ⟨.pyInt 2, .pyStr "s2".data, .pyStr "e2".data, .pyStr "b".data⟩,
         ⟨.pyInt 3, .pyStr "s3".data, .pyStr "e3".data, .pyStr "c".data⟩]
        2 (by decide) .absent none true =
      .ok ⟨[⟨.pyInt 1, .pyStr "s1".data, .pyStr "e1".data, .pyStr "T1".data⟩,
            ⟨.pyInt 2, .pyStr "s2".data, .pyStr "e2".data, .pyStr "T2".data⟩,
            ⟨.pyInt 3, .pyStr "s3".data, .pyStr "e3".data, .pyStr "c".data⟩],
           .absent,
           some [⟨.pyInt 1, .pyStr "s1".data, .pyStr "e1".data, .pyStr "T1".data⟩,
                 ⟨.pyInt 2, .pyStr "s2".data, .pyStr "e2".data, .pyStr "T2".data⟩,
                 ⟨.pyInt 3, .pyStr "s3".data, .pyStr "e3".data, .pyStr "c".data⟩],
           0, 2, 2⟩) ∧
    (∃ r2, translateFile (fun i texts => translateBatchTexts (if i = 0 then
          .parsed (.pyList
            [.pyDict [("id".data, .pyInt 0), ("text".data, .pyStr "T1".data)],
             .pyDict [("id".data, .pyInt 1), ("text".data, .pyStr "T2".data)]])
          else .hardFail) texts)
        [⟨.pyInt 1, .pyStr "s1".data, .pyStr "e1".data, .pyStr "a".data⟩,
         ⟨.pyInt 2, .pyStr "s2".data, .pyStr "e2".data, .pyStr "b".data⟩,
         ⟨.pyInt 3, .pyStr "s3".data, .pyStr "e3".data, .pyStr "c".data⟩]
        2 (by decide) .absent
        (some [⟨.pyInt 1, .pyStr "s1".data, .pyStr "e1".data, .pyStr "T1".data⟩,
               ⟨.pyInt 2, .pyStr "s2".data, .pyStr "e2".data, .pyStr "T2".data⟩,
               ⟨.pyInt 3, .pyStr "s3".data, .pyStr "e3".data, .pyStr "c".data⟩])
        true = .ok r2 ∧ r2.resumedAt = 0 ∧ r2.calls = 2) := by
  refine ⟨fun _ => rfl, ?_, ?_⟩
  · rw [translateFile_eval]
    rfl
  · refine ⟨⟨[⟨.pyInt 1, .pyStr "s1".data, .pyStr "e1".data, .pyStr "T1".data⟩,
      ⟨.pyInt 2, .pyStr "s2".data, .pyStr "e2".data, .pyStr "T2".data⟩,
      ⟨.pyInt 3, .pyStr "s3".data, .pyStr "e3".data, .pyStr "c".data⟩],
      .absent,
      some [⟨.pyInt 1, .pyStr "s1".data, .pyStr "e1".data, .pyStr "T1".data⟩,
            ⟨.pyInt 2, .pyStr "s2".data, .pyStr "e2".data, .pyStr "T2".data⟩,
            ⟨.pyInt 3, .pyStr "s3".data, .pyStr "e3".data, .pyStr "c".data⟩],
      0, 2, 2⟩, ?_, rfl, rfl⟩
    rw [translateFile_eval]
    rfl

end SubAI
